import Mathlib

/-!
Verification of the annotation cropping and visualization engine
(`ImageAnnotationCropper` in `src/condition_report_service.py`).

Shallow embedding conventions:
* Python `int` is `ℤ`; Python `float` is modelled by `ℚ` (every claim here
  is settled at inputs where IEEE-double and exact rational arithmetic agree).
* Python `int(f)` (truncation toward zero) is `pyInt`; Python `//` on
  integers (floor division) is `Int.fdiv`.
* A `points` payload is `List (ℚ ⊕ List ℚ)`: each entry is either a bare
  number or a nested list, mirroring `Union[List[float], List[List[float]]]`.
* PIL drawing is modelled by the list of drawing primitives issued
  (`DrawCmd`); PIL's object graph (needed for the mutation claim) by a heap
  of buffers indexed by position.
-/

set_option autoImplicit false

namespace T2D2

/-- Python `int()` on a rational: truncation toward zero. Since the
denominator is positive, T-division of numerator by denominator is exactly
truncation toward zero. -/
def pyInt (q : ℚ) : ℤ := q.num.tdiv q.den

/-- The clamp `max(0.0, min(1.0, v))` applied to each normalized coordinate
in `denormalize_coordinates` (line 81-82 of the source). -/
def clamp01 (q : ℚ) : ℚ := max 0 (min 1 q)

/-- `flatten_points` (source lines 50-61): each entry that is a list is
spliced in (`extend`), each bare number appended. -/
def flatten_points (points : List (ℚ ⊕ List ℚ)) : List ℚ :=
  points.flatMap fun p =>
    match p with
    | .inl v => [v]
    | .inr l => l

/-- The pair-consuming loop of `denormalize_coordinates` (source lines
76-85): steps through the flat list two values at a time, clamps each to
`[0,1]`, scales by the image dimension, and truncates to `int`. A trailing
unpaired value is ignored (the loop's `i + 1 >= len` break). -/
def denormPairs (image_width image_height : ℤ) : List ℚ → List ℤ
  | x :: y :: rest =>
      pyInt (clamp01 x * image_width) :: pyInt (clamp01 y * image_height) ::
        denormPairs image_width image_height rest
  | _ => []

/-- `denormalize_coordinates` (source lines 63-86): flatten, drop the last
value when the flattened length is odd, then convert pairs to pixels. -/
def denormalize_coordinates (points : List (ℚ ⊕ List ℚ))
    (image_width image_height : ℤ) : List ℤ :=
  let flat_points := flatten_points points
  let flat_points :=
    if flat_points.length % 2 ≠ 0 then flat_points.dropLast else flat_points
  denormPairs image_width image_height flat_points

/-- The stride-2 comprehension `[l[i] for i in range(0, len(l), 2)]`
(source line 102): elements at even indices. -/
def evens : List ℤ → List ℤ
  | x :: _ :: rest => x :: evens rest
  | [x] => [x]
  | [] => []

/-- The stride-2 comprehension `[l[i] for i in range(1, len(l), 2)]`
(source line 103): elements at odd indices. -/
def odds : List ℤ → List ℤ
  | _ :: y :: rest => y :: odds rest
  | _ => []

/-- Python `min` over a list; the source only applies it to lists checked
nonempty, so the `[]` value is never relied on. -/
def minL : List ℤ → ℤ
  | [] => 0
  | x :: xs => xs.foldl min x

/-- Python `max` over a list; the source only applies it to lists checked
nonempty, so the `[]` value is never relied on. -/
def maxL : List ℤ → ℤ
  | [] => 0
  | x :: xs => xs.foldl max x

/-- A pixel bounding box `(x_min, y_min, x_max, y_max)`. -/
structure Box where
  x_min : ℤ
  y_min : ℤ
  x_max : ℤ
  y_max : ℤ
  deriving DecidableEq, Repr

/-- `get_bounding_box` (source lines 88-122): denormalize, fail on fewer
than 2 pixel values or empty deinterleaved lists, otherwise the independent
min/max of x and y coordinates, each clamped into `[0, dim-1]`. -/
def get_bounding_box (points : List (ℚ ⊕ List ℚ))
    (image_width image_height : ℤ) : Option Box :=
  let pixel_coords := denormalize_coordinates points image_width image_height
  if pixel_coords.length < 2 then none
  else
    let x_coords := evens pixel_coords
    let y_coords := odds pixel_coords
    if x_coords = [] ∨ y_coords = [] then none
    else
      some
        { x_min := max 0 (min (minL x_coords) (image_width - 1))
          y_min := max 0 (min (minL y_coords) (image_height - 1))
          x_max := max 0 (min (maxL x_coords) (image_width - 1))
          y_max := max 0 (min (maxL y_coords) (image_height - 1)) }

/-- The minimum-size step of `expand_bbox` (source lines 137-142 for x,
144-149 for y): when the extent is below `min_size`, recenter on the floor
midpoint and place the bounds `min_size // 2` on each side. -/
def force_min (lo hi min_size : ℤ) : ℤ × ℤ :=
  if hi - lo < min_size then
    let center := (lo + hi).fdiv 2
    (center - min_size.fdiv 2, center + min_size.fdiv 2)
  else (lo, hi)

/-- `expand_bbox` (source lines 124-162). Note that after the minimum-size
step the source's `width`/`height` variables are set to `min_size` itself
(lines 142, 149), and padding is computed from those variables; the final
clamp is `[0, dimension]` (max side clamps to the dimension, not
`dimension - 1`). -/
def expand_bbox (bbox : Box) (image_width image_height : ℤ)
    (padding_percent : ℚ) (min_size : ℤ) : Box :=
  let width := bbox.x_max - bbox.x_min
  let height := bbox.y_max - bbox.y_min
  let xs := force_min bbox.x_min bbox.x_max min_size
  let width := if width < min_size then min_size else width
  let ys := force_min bbox.y_min bbox.y_max min_size
  let height := if height < min_size then min_size else height
  let padding_x := pyInt ((width : ℚ) * padding_percent)
  let padding_y := pyInt ((height : ℚ) * padding_percent)
  { x_min := max 0 (xs.1 - padding_x)
    y_min := max 0 (ys.1 - padding_y)
    x_max := min image_width (xs.2 + padding_x)
    y_max := min image_height (ys.2 + padding_y) }

/-- `pyInt` of an integer is that integer. -/
@[simp]
lemma pyInt_intCast (n : ℤ) : pyInt (n : ℚ) = n := by
  simp [pyInt, Rat.intCast_num, Rat.intCast_den]

/-- `pyInt 0 = 0`. -/
@[simp]
lemma pyInt_zero : pyInt 0 = 0 := by
  simp [pyInt]

/-- Multiplying by a zero padding percentage gives zero padding. -/
@[simp]
lemma pyInt_mul_zero (q : ℚ) : pyInt (q * 0) = 0 := by
  simp

/-- `clamp01` is the identity on `[0, 1]`. -/
lemma clamp01_eq {q : ℚ} (h0 : 0 ≤ q) (h1 : q ≤ 1) : clamp01 q = q := by
  simp [clamp01, min_eq_right h1, max_eq_right h0]

@[simp]
lemma clamp01_zero : clamp01 0 = 0 := clamp01_eq le_rfl zero_le_one

@[simp]
lemma clamp01_one : clamp01 1 = 1 := clamp01_eq zero_le_one le_rfl

/-- Evaluates one scaled coordinate when the normalized value is already in
`[0, 1]` and the product is an integer. -/
lemma pyInt_clamp01_mul {q : ℚ} {w n : ℤ} (h0 : 0 ≤ q) (h1 : q ≤ 1)
    (hn : q * (w : ℚ) = (n : ℚ)) : pyInt (clamp01 q * (w : ℚ)) = n := by
  rw [clamp01_eq h0 h1, hn, pyInt_intCast]

/-- An annotation record: the fields of the input dict that the geometry
engine dereferences (`id`, `points`, `shape`; `visible` is used by the bulk
loops). The class color only affects fill/outline colors, which the drawing
model abstracts over. -/
structure Annotation where
  id : ℤ
  shape : ℤ
  points : List (ℚ ⊕ List ℚ)
  visible : Bool
  deriving DecidableEq, Repr

/-- A PIL image, abstracted to its pixel dimensions (`Image.size`). -/
structure PILImage where
  width : ℤ
  height : ℤ
  deriving DecidableEq, Repr

/-- `Image.crop(box)`: PIL returns an image whose size is exactly
`(x_max - x_min, y_max - y_min)` (out-of-range regions are padded). -/
def cropImage (_img : PILImage) (box : Box) : PILImage :=
  { width := box.x_max - box.x_min, height := box.y_max - box.y_min }

/-- ` crop_annotation` (source lines 164-199): bounding box, expansion with
`min_size = 50`, degeneracy check, crop, zero-size check. The source wraps
the whole body in `try/except` and returns `(None, None)` on any exception;
the embedding is a total function into `Option`, with `none` playing the
role of `(None, None)`. -/
def crop_annotation (img : PILImage) (ann : Annotation)
    (image_width image_height : ℤ) (padding_percent : ℚ) :
    Option (PILImage × Box) :=
  match get_bounding_box ann.points image_width image_height with
  | none => none
  | some bbox =>
    let expanded_bbox := expand_bbox bbox image_width image_height padding_percent 50
    if expanded_bbox.x_max ≤ expanded_bbox.x_min ∨
        expanded_bbox.y_max ≤ expanded_bbox.y_min then none
    else
      let cropped := cropImage img expanded_bbox
      if cropped.width = 0 ∨ cropped.height = 0 then none
      else some (cropped, expanded_bbox)

/-- A drawing primitive issued on the `ImageDraw` handle: a filled+outlined
rectangle, a filled+outlined polygon, a filled+outlined ellipse given by its
bounding box, or a stroked polyline. -/
inductive DrawCmd where
  | rect (x0 y0 x1 y1 : ℤ)
  | poly (pts : List (ℤ × ℤ))
  | ellipse (x0 y0 x1 y1 : ℤ)
  | line (pts : List (ℤ × ℤ))
  deriving DecidableEq, Repr

/-- The pairing comprehension `[(l[i], l[i+1]) for i in range(0, len(l), 2)]`
(source lines 244-245 and alike); the source only applies it to the
even-length pixel lists produced by `denormalize_coordinates`, so the
odd-tail case is never reached. -/
def toPairs : List ℤ → List (ℤ × ℤ)
  | x :: y :: rest => (x, y) :: toPairs rest
  | _ => []

/-- The crop-offset comprehension (source lines 226-229): subtract the
offset box's `x_min` at even indices and its `y_min` at odd indices,
written here as the equivalent recursion two entries at a time. -/
def applyOffset (x_offset y_offset : ℤ) : List ℤ → List ℤ
  | x :: y :: rest => (x - x_offset) :: (y - y_offset) :: applyOffset x_offset y_offset rest
  | [x] => [x - x_offset]
  | [] => []

/-- The shape dispatch of `draw_annotation_on_image` (source lines 231-284):
Rectangle (3), Polygon (4), Point (8, fixed radius 15 drawn as an ellipse
box), Line (5), and the unknown-shape fallback drawing the min/max
bounding rectangle; insufficient points issue no primitive. -/
def dispatchShape (shape : ℤ) (pixel_coords : List ℤ) : List DrawCmd :=
  if shape = 3 then
    match pixel_coords with
    | x0 :: y0 :: x1 :: y1 :: _ => [DrawCmd.rect x0 y0 x1 y1]
    | _ => []
  else if shape = 4 then
    let coords_list := toPairs pixel_coords
    if 3 ≤ coords_list.length then [DrawCmd.poly coords_list] else []
  else if shape = 8 then
    match pixel_coords with
    | x0 :: y0 :: _ =>
        [DrawCmd.ellipse (x0 - 15) (y0 - 15) (x0 + 15) (y0 + 15)]
    | _ => []
  else if shape = 5 then
    let coords_list := toPairs pixel_coords
    if 2 ≤ coords_list.length then [DrawCmd.line coords_list] else []
  else
    let coords_list := toPairs pixel_coords
    if 2 ≤ coords_list.length then
      let x_coords := evens pixel_coords
      let y_coords := odds pixel_coords
      if x_coords ≠ [] ∧ y_coords ≠ [] then
        [DrawCmd.rect (minL x_coords) (minL y_coords) (maxL x_coords) (maxL y_coords)]
      else []
    else []

/-- The primitives issued by one `draw_annotation_on_image` call
(source lines 221-284): denormalize, apply the crop offset when a `bbox`
is supplied, then dispatch on the shape code. -/
def overlay_cmds (ann : Annotation) (image_width image_height : ℤ)
    (bbox : Option Box) : List DrawCmd :=
  let pixel_coords := denormalize_coordinates ann.points image_width image_height
  let pixel_coords :=
    match bbox with
    | some b => applyOffset b.x_min b.y_min pixel_coords
    | none => pixel_coords
  dispatchShape ann.shape pixel_coords

/-- A PIL image buffer for the mutation model: base pixel content plus the
primitives drawn onto it so far. -/
structure PILBuf where
  pixels : List ℤ
  cmds : List DrawCmd
  deriving DecidableEq, Repr

/-- `draw_annotation_on_image` (source lines 201-291) as a heap operation,
modelling Python object identity: the heap is the list of live image
buffers and an image argument is an index into it. The call copies the
source buffer (`image.copy()`, line 209), appends the copy to the heap as a
fresh object, and issues all drawing primitives against the copy only
(`ImageDraw.Draw(img_copy)`, line 210). It returns the updated heap and
the index of the copy. -/
def draw_annotation_on_image (heap : List PILBuf) (image : ℕ)
    (ann : Annotation) (image_width image_height : ℤ) (bbox : Option Box) :
    List PILBuf × ℕ :=
  let img_copy := heap.getD image ⟨[], []⟩
  let copy_ref := heap.length
  let drawn := { img_copy with
    cmds := img_copy.cmds ++ overlay_cmds ann image_width image_height bbox }
  ((heap ++ [img_copy]).set copy_ref drawn, copy_ref)

/-- Translation of a drawing primitive by `(-x_offset, -y_offset)`: the
crop-local repositioning the offset box is meant to achieve. -/
def translateCmd (x_offset y_offset : ℤ) : DrawCmd → DrawCmd
  | .rect x0 y0 x1 y1 =>
      .rect (x0 - x_offset) (y0 - y_offset) (x1 - x_offset) (y1 - y_offset)
  | .poly pts => .poly (pts.map fun p => (p.1 - x_offset, p.2 - y_offset))
  | .ellipse x0 y0 x1 y1 =>
      .ellipse (x0 - x_offset) (y0 - y_offset) (x1 - x_offset) (y1 - y_offset)
  | .line pts => .line (pts.map fun p => (p.1 - x_offset, p.2 - y_offset))

/-- A nested-pairs points payload, as `[[x1, y1], [x2, y2], ...]`. -/
def pairsPts (ps : List (ℚ × ℚ)) : List (ℚ ⊕ List ℚ) :=
  ps.map fun p => Sum.inr [p.1, p.2]

/-- The same points as a flat payload `[x1, y1, x2, y2, ...]`. -/
def flatPts (ps : List (ℚ × ℚ)) : List (ℚ ⊕ List ℚ) :=
  ps.flatMap fun p => [Sum.inl p.1, Sum.inl p.2]

lemma flatten_points_pairsPts (ps : List (ℚ × ℚ)) :
    flatten_points (pairsPts ps) = ps.flatMap fun p => [p.1, p.2] := by
  induction ps with
  | nil => rfl
  | cons p ps ih => simp [pairsPts, flatten_points, List.flatMap_cons] at ih ⊢; exact ih

lemma flatten_points_flatPts (ps : List (ℚ × ℚ)) :
    flatten_points (flatPts ps) = ps.flatMap fun p => [p.1, p.2] := by
  induction ps with
  | nil => rfl
  | cons p ps ih => simp [flatPts, flatten_points, List.flatMap_cons] at ih ⊢; exact ih

lemma flatten_points_map_inl (l : List ℚ) :
    flatten_points (l.map Sum.inl) = l := by
  induction l with
  | nil => rfl
  | cons x xs ih => simp [flatten_points, List.flatMap_cons] at ih ⊢; exact ih

lemma denormPairs_length (w h : ℤ) (l : List ℚ) :
    (denormPairs w h l).length = 2 * (l.length / 2) := by
  induction l using denormPairs.induct w h with
  | case1 x y rest ih => simp [denormPairs, ih]; omega
  | case2 l hl =>
    cases l with
    | nil => rfl
    | cons x xs =>
      cases xs with
      | nil => simp [denormPairs]
      | cons y r => exact (hl x y r rfl).elim

lemma denormPairs_length_even (w h : ℤ) (l : List ℚ) :
    (denormPairs w h l).length % 2 = 0 := by
  rw [denormPairs_length]; omega

lemma denormalize_length_even (pts : List (ℚ ⊕ List ℚ)) (w h : ℤ) :
    (denormalize_coordinates pts w h).length % 2 = 0 := by
  by_cases hp : (flatten_points pts).length % 2 ≠ 0 <;>
    simp [denormalize_coordinates, hp, denormPairs_length_even]

lemma applyOffset_toPairs (x_offset y_offset : ℤ) (l : List ℤ) :
    toPairs (applyOffset x_offset y_offset l)
      = (toPairs l).map fun p => (p.1 - x_offset, p.2 - y_offset) := by
  induction l using applyOffset.induct x_offset y_offset with
  | case1 x y rest ih => simp [applyOffset, toPairs, ih]
  | case2 x => simp [applyOffset, toPairs]
  | case3 => simp [applyOffset, toPairs]

lemma applyOffset_evens (x_offset y_offset : ℤ) (l : List ℤ) :
    evens (applyOffset x_offset y_offset l) = (evens l).map (· - x_offset) := by
  induction l using applyOffset.induct x_offset y_offset with
  | case1 x y rest ih => simp [applyOffset, evens, ih]
  | case2 x => simp [applyOffset, evens]
  | case3 => simp [applyOffset, evens]

lemma applyOffset_odds (x_offset y_offset : ℤ) (l : List ℤ) :
    odds (applyOffset x_offset y_offset l) = (odds l).map (· - y_offset) := by
  induction l using applyOffset.induct x_offset y_offset with
  | case1 x y rest ih => simp [applyOffset, odds, ih]
  | case2 x => simp [applyOffset, odds]
  | case3 => simp [applyOffset, odds]

lemma foldl_min_sub (xs : List ℤ) (a c : ℤ) :
    (xs.map (· - c)).foldl min (a - c) = xs.foldl min a - c := by
  induction xs generalizing a with
  | nil => rfl
  | cons x xs ih => simpa [min_sub_sub_right] using ih (min a x)

lemma foldl_max_sub (xs : List ℤ) (a c : ℤ) :
    (xs.map (· - c)).foldl max (a - c) = xs.foldl max a - c := by
  induction xs generalizing a with
  | nil => rfl
  | cons x xs ih => simpa [max_sub_sub_right] using ih (max a x)

lemma minL_map_sub {l : List ℤ} (c : ℤ) (hl : l ≠ []) :
    minL (l.map (· - c)) = minL l - c := by
  match l, hl with
  | x :: xs, _ => simpa [minL] using foldl_min_sub xs x c

lemma maxL_map_sub {l : List ℤ} (c : ℤ) (hl : l ≠ []) :
    maxL (l.map (· - c)) = maxL l - c := by
  match l, hl with
  | x :: xs, _ => simpa [maxL] using foldl_max_sub xs x c

lemma dispatchShape_applyOffset (shape x_offset y_offset : ℤ) (pc : List ℤ) :
    dispatchShape shape (applyOffset x_offset y_offset pc)
      = (dispatchShape shape pc).map (translateCmd x_offset y_offset) := by
  unfold dispatchShape
  by_cases h3 : shape = 3
  · simp only [if_pos h3]
    rcases pc with _ | ⟨a, _ | ⟨b, _ | ⟨c, _ | ⟨d, t⟩⟩⟩⟩ <;>
      simp [applyOffset, translateCmd]
  by_cases h4 : shape = 4
  · simp only [if_neg h3, if_pos h4]
    rw [applyOffset_toPairs, List.length_map]
    split
    · simp [translateCmd]
    · simp
  by_cases h8 : shape = 8
  · simp only [if_neg h3, if_neg h4, if_pos h8]
    rcases pc with _ | ⟨a, _ | ⟨b, t⟩⟩
    · simp [applyOffset]
    · simp [applyOffset]
    · simp [applyOffset, translateCmd]
      omega
  by_cases h5 : shape = 5
  · simp only [if_neg h3, if_neg h4, if_neg h8, if_pos h5]
    rw [applyOffset_toPairs, List.length_map]
    split
    · simp [translateCmd]
    · simp
  · simp only [if_neg h3, if_neg h4, if_neg h8, if_neg h5]
    rw [applyOffset_toPairs, List.length_map, applyOffset_evens, applyOffset_odds]
    split
    · cases he : evens pc with
      | nil => simp
      | cons x xs =>
        cases ho : odds pc with
        | nil => simp
        | cons y ys =>
          have m1 := @minL_map_sub (x :: xs) x_offset (by simp)
          have m2 := @minL_map_sub (y :: ys) y_offset (by simp)
          have m3 := @maxL_map_sub (x :: xs) x_offset (by simp)
          have m4 := @maxL_map_sub (y :: ys) y_offset (by simp)
          simp only [List.map_cons] at m1 m2 m3 m4
          simp [translateCmd, m1, m2, m3, m4]
    · simp

/-- On nonnegative rationals, Python truncation agrees with the floor. -/
lemma pyInt_eq_floor {q : ℚ} (h : 0 ≤ q) : pyInt q = ⌊q⌋ := by
  rw [Rat.floor_def]
  exact Int.tdiv_eq_ediv (Rat.num_nonneg.mpr h) (Int.natCast_nonneg _)

lemma clamp01_nonneg (q : ℚ) : 0 ≤ clamp01 q := le_max_left 0 _

lemma clamp01_le_one (q : ℚ) : clamp01 q ≤ 1 :=
  max_le zero_le_one (min_le_left 1 q)

/-- Each scaled-and-truncated coordinate lands in `[0, dim]`. -/
lemma pyInt_clamp01_mem {q : ℚ} {w : ℤ} (hw : 0 < w) :
    0 ≤ pyInt (clamp01 q * (w : ℚ)) ∧ pyInt (clamp01 q * (w : ℚ)) ≤ w := by
  have hw' : (0 : ℚ) ≤ (w : ℚ) := by exact_mod_cast hw.le
  have hq0 : 0 ≤ clamp01 q * (w : ℚ) := mul_nonneg (clamp01_nonneg q) hw'
  rw [pyInt_eq_floor hq0]
  constructor
  · exact Int.le_floor.mpr (by exact_mod_cast hq0)
  · have hle : clamp01 q * (w : ℚ) ≤ (w : ℚ) := by
      calc clamp01 q * (w : ℚ) ≤ 1 * (w : ℚ) :=
            mul_le_mul_of_nonneg_right (clamp01_le_one q) hw'
        _ = (w : ℚ) := one_mul _
    calc ⌊clamp01 q * (w : ℚ)⌋ ≤ ⌊(w : ℚ)⌋ := Int.floor_le_floor hle
      _ = w := Int.floor_intCast w

/-- A normalized coordinate at or above `1` maps to exactly the dimension. -/
lemma pyInt_clamp01_of_one_le {q : ℚ} {w : ℤ} (hq : 1 ≤ q) :
    pyInt (clamp01 q * (w : ℚ)) = w := by
  have h1 : clamp01 q = 1 := by
    rw [clamp01, min_eq_left hq, max_eq_right zero_le_one]
  rw [h1, one_mul, pyInt_intCast]

lemma flatMap_pair_length (ps : List (ℚ × ℚ)) :
    (ps.flatMap fun p => [p.1, p.2]).length = 2 * ps.length := by
  induction ps with
  | nil => rfl
  | cons p ps ih => simp [List.flatMap_cons, ih]; omega

lemma denormalize_pairsPts_length (ps : List (ℚ × ℚ)) (w h : ℤ) :
    (denormalize_coordinates (pairsPts ps) w h).length = 2 * ps.length := by
  have hl : (flatten_points (pairsPts ps)).length = 2 * ps.length := by
    rw [flatten_points_pairsPts, flatMap_pair_length]
  have he : ¬((flatten_points (pairsPts ps)).length % 2 ≠ 0) := by omega
  simp only [denormalize_coordinates, if_neg he]
  rw [denormPairs_length, hl]
  omega

lemma denormalize_cons_cons {pts : List (ℚ ⊕ List ℚ)} {w h : ℤ}
    (hlen : ¬(denormalize_coordinates pts w h).length < 2) :
    ∃ a b t, denormalize_coordinates pts w h = a :: b :: t := by
  cases hc : denormalize_coordinates pts w h with
  | nil => rw [hc] at hlen; simp at hlen
  | cons a l =>
    cases l with
    | nil =>
      have := denormalize_length_even pts w h
      rw [hc] at this
      simp at this
    | cons b t => exact ⟨a, b, t, rfl⟩

section Claims

/-- Claim C1, counterexample: on the bounding box `(2,2,7,7)` in a
1000x1000 image with `min_size = 50` and zero padding, `expand_bbox` does
not return `x_min = 0` with `x_max = 52`: the recentered interval is
`(4 - 25, 4 + 25) = (-21, 29)`, so after clamping `x_max` is `29`. -/
theorem expand_bbox_edge_not_52 :
    ¬ ((expand_bbox ⟨2, 2, 7, 7⟩ 1000 1000 0 50).x_min = 0 ∧
       (expand_bbox ⟨2, 2, 7, 7⟩ 1000 1000 0 50).x_max = 52) := by
  have e : expand_bbox ⟨2, 2, 7, 7⟩ 1000 1000 0 50 = ⟨0, 0, 29, 29⟩ := by
    simp +decide [expand_bbox, force_min]
  rw [e]
  decide

/-- Claim C1 (amended): for the bounding box `(2,2,7,7)` in a 1000x1000
image with `min_size = 50` and zero padding, `expand_bbox` returns
`(0, 0, 29, 29)`: `x_min` clamps to `0` while `x_max` stays at `29`, a
final width of 29 rather than exactly 50 — the edge-clamp anomaly is
preserved, not corrected. -/
theorem expand_bbox_edge_clamp_anomaly :
    expand_bbox ⟨2, 2, 7, 7⟩ 1000 1000 0 50 = ⟨0, 0, 29, 29⟩ := by
  simp +decide [expand_bbox, force_min]

/-- Claim C2: whenever an extent `hi - lo` is below `min_size` (with
`min_size` even, as the default 50 is), the minimum-size step of
`expand_bbox` recenters the interval on the floor midpoint and forces its
extent to exactly `min_size`, before padding and clamping are applied; in
particular the box `(40,40,45,45)` in a 1000x1000 image with
`min_size = 50` and zero padding expands to exactly `(17,17,67,67)`. -/
theorem expand_bbox_min_size_enforced (lo hi min_size : ℤ)
    (hlt : hi - lo < min_size) (heven : 2 ∣ min_size) :
    (force_min lo hi min_size).2 - (force_min lo hi min_size).1 = min_size ∧
    (force_min lo hi min_size).1 + (force_min lo hi min_size).2
      = 2 * ((lo + hi).fdiv 2) ∧
    expand_bbox ⟨40, 40, 45, 45⟩ 1000 1000 0 50 = ⟨17, 17, 67, 67⟩ := by
  obtain ⟨k, rfl⟩ := heven
  have hk : (2 * k).fdiv 2 = k := Int.mul_fdiv_cancel_left k (by decide)
  refine ⟨?_, ?_, by simp +decide [expand_bbox, force_min]⟩
  · rw [force_min, if_pos hlt]
    simp only [hk]
    ring
  · rw [force_min, if_pos hlt]
    simp only [hk]
    ring

/-- Witness for C2 at the claim's own instance `min_size = 50`,
box `(40,40,45,45)`. -/
theorem expand_bbox_min_size_enforced_witness :
    (force_min 40 45 50).2 - (force_min 40 45 50).1 = 50 ∧
    (force_min 40 45 50).1 + (force_min 40 45 50).2
      = 2 * (Int.fdiv (40 + 45) 2) ∧
    expand_bbox ⟨40, 40, 45, 45⟩ 1000 1000 0 50 = ⟨17, 17, 67, 67⟩ :=
  expand_bbox_min_size_enforced 40 45 50 (by decide) ⟨25, rfl⟩

/-- Claim C6: the overlay dispatch draws the primitive selected by the
shape code at the denormalized pixel coordinates: shape 3 (Rectangle) with
points `[0, 0, 0.5, 0.5]` on a 200x200 image yields the filled rectangle
from `(0,0)` to `(100,100)`, and shape 8 (Point) with the single pair
`[0.5, 0.5]` yields the filled circle of radius 15 centered at
`(100,100)`, drawn as the ellipse on the box `(85,85)-(115,115)`. -/
theorem overlay_shape_dispatch :
    overlay_cmds ⟨1, 3, [.inl 0, .inl 0, .inl (1/2), .inl (1/2)], true⟩
        200 200 none = [DrawCmd.rect 0 0 100 100] ∧
    overlay_cmds ⟨2, 8, [.inr [1/2, 1/2]], true⟩ 200 200 none
      = [DrawCmd.ellipse (100 - 15) (100 - 15) (100 + 15) (100 + 15)] := by
  have h5 : pyInt (clamp01 (1/2) * ((200 : ℤ) : ℚ)) = 100 :=
    @pyInt_clamp01_mul (1/2) 200 100 (by norm_num) (by norm_num) (by norm_num)
  have h0 : pyInt (clamp01 0 * ((200 : ℤ) : ℚ)) = 0 :=
    @pyInt_clamp01_mul 0 200 0 le_rfl zero_le_one (by norm_num)
  constructor
  · have e : overlay_cmds ⟨1, 3, [.inl 0, .inl 0, .inl (1/2), .inl (1/2)], true⟩
        200 200 none
        = dispatchShape 3
            [pyInt (clamp01 0 * ((200 : ℤ) : ℚ)),
             pyInt (clamp01 0 * ((200 : ℤ) : ℚ)),
             pyInt (clamp01 (1/2) * ((200 : ℤ) : ℚ)),
             pyInt (clamp01 (1/2) * ((200 : ℤ) : ℚ))] := rfl
    rw [e, h5, h0]
    decide
  · have e : overlay_cmds ⟨2, 8, [.inr [1/2, 1/2]], true⟩ 200 200 none
        = dispatchShape 8
            [pyInt (clamp01 (1/2) * ((200 : ℤ) : ℚ)),
             pyInt (clamp01 (1/2) * ((200 : ℤ) : ℚ))] := rfl
    rw [e, h5]
    decide

/-- Claim C7: with an offset box the overlay pipeline subtracts the box's
`x_min` from every x coordinate and its `y_min` from every y coordinate
(second conjunct), and consequently drawing with an offset box issues
exactly the translate of the primitives drawn without one — drawing onto a
crop places the shape at the same image-relative position, differing only
by the crop origin translation (first conjunct). -/
theorem overlay_offset_translation (ann : Annotation) (w h : ℤ) (b : Box) :
    overlay_cmds ann w h (some b)
      = (overlay_cmds ann w h none).map (translateCmd b.x_min b.y_min) ∧
    toPairs (applyOffset b.x_min b.y_min
        (denormalize_coordinates ann.points w h))
      = (toPairs (denormalize_coordinates ann.points w h)).map
          (fun p => (p.1 - b.x_min, p.2 - b.y_min)) := by
  constructor
  · have e1 : overlay_cmds ann w h (some b)
        = dispatchShape ann.shape (applyOffset b.x_min b.y_min
            (denormalize_coordinates ann.points w h)) := rfl
    have e2 : overlay_cmds ann w h none
        = dispatchShape ann.shape (denormalize_coordinates ann.points w h) :=
      rfl
    rw [e1, e2, dispatchShape_applyOffset]
  · exact applyOffset_toPairs b.x_min b.y_min _

/-- Claim C8: the flat and the nested points representations are
interchangeable: `denormalize_coordinates`, `get_bounding_box` and the
overlay pipeline produce identical output on
`[[x1,y1],[x2,y2],...]` and on `[x1,y1,x2,y2,...]`. -/
theorem points_flat_nested_equiv (ps : List (ℚ × ℚ)) (w h : ℤ) :
    denormalize_coordinates (pairsPts ps) w h
      = denormalize_coordinates (flatPts ps) w h ∧
    get_bounding_box (pairsPts ps) w h = get_bounding_box (flatPts ps) w h ∧
    ∀ (i shape : ℤ) (vis : Bool) (bbox : Option Box),
      overlay_cmds ⟨i, shape, pairsPts ps, vis⟩ w h bbox
        = overlay_cmds ⟨i, shape, flatPts ps, vis⟩ w h bbox := by
  have hf : flatten_points (pairsPts ps) = flatten_points (flatPts ps) := by
    rw [flatten_points_pairsPts, flatten_points_flatPts]
  have hd : denormalize_coordinates (pairsPts ps) w h
      = denormalize_coordinates (flatPts ps) w h := by
    unfold denormalize_coordinates
    rw [hf]
  refine ⟨hd, ?_, ?_⟩
  · unfold get_bounding_box
    rw [hd]
  · intro i shape vis bbox
    cases bbox <;> simp only [overlay_cmds, hd]

/-- Claim C4: when the flattened coordinate sequence has odd length,
`denormalize_coordinates` drops the trailing unpaired value and converts
the remaining pairs, so its result always has even length; in particular
the flat input `[0.1, 0.2, 0.9]` against a 100x100 image gives exactly
`[10, 20]`. -/
theorem denormalize_odd_drop (pts : List (ℚ ⊕ List ℚ)) (w h : ℤ) :
    ((flatten_points pts).length % 2 = 1 →
      denormalize_coordinates pts w h
        = denormalize_coordinates ((flatten_points pts).dropLast.map Sum.inl)
            w h) ∧
    (denormalize_coordinates pts w h).length % 2 = 0 ∧
    denormalize_coordinates [.inl (1/10), .inl (2/10), .inl (9/10)] 100 100
      = [10, 20] := by
  refine ⟨?_, denormalize_length_even pts w h, ?_⟩
  · intro hodd
    have h1 : (flatten_points pts).length % 2 ≠ 0 := by omega
    have h2 : ¬((flatten_points pts).dropLast.length % 2 ≠ 0) := by
      rw [List.length_dropLast]
      omega
    simp only [denormalize_coordinates, flatten_points_map_inl, if_pos h1,
      if_neg h2]
  · have e : denormalize_coordinates
        [.inl (1/10), .inl (2/10), .inl (9/10)] 100 100
        = [pyInt (clamp01 (1/10) * ((100 : ℤ) : ℚ)),
           pyInt (clamp01 (2/10) * ((100 : ℤ) : ℚ))] := rfl
    rw [e,
      @pyInt_clamp01_mul (1/10) 100 10 (by norm_num) (by norm_num) (by norm_num),
      @pyInt_clamp01_mul (2/10) 100 20 (by norm_num) (by norm_num) (by norm_num)]

/-- Witness for C4 at the claim's own odd-length instance. -/
theorem denormalize_odd_drop_witness :
    ((flatten_points [.inl (1/10), .inl (2/10), .inl (9/10)]).length % 2 = 1) ∧
    (denormalize_coordinates [.inl (1/10), .inl (2/10), .inl (9/10)] 100 100
      = denormalize_coordinates
          ((flatten_points
              [.inl (1/10), .inl (2/10), .inl (9/10)]).dropLast.map Sum.inl)
          100 100) :=
  ⟨by decide,
   (denormalize_odd_drop [.inl (1/10), .inl (2/10), .inl (9/10)] 100 100).1
     (by decide)⟩

/-- Claim C3: on at least one nested point pair and positive dimensions,
`get_bounding_box` returns the box whose `x_min/x_max` are the minimum and
maximum of the denormalized x coordinates and `y_min/y_max` those of the
y coordinates, each clamped into `[0, dimension - 1]`; and (for any points
payload) it returns `none` exactly when fewer than 2 pixel values result
from denormalization. -/
theorem get_bounding_box_minmax (ps : List (ℚ × ℚ)) (w h : ℤ)
    (_hw : 0 < w) (_hh : 0 < h) (hps : ps ≠ []) :
    get_bounding_box (pairsPts ps) w h =
      some
        { x_min := max 0 (min
            (minL (evens (denormalize_coordinates (pairsPts ps) w h))) (w - 1))
          y_min := max 0 (min
            (minL (odds (denormalize_coordinates (pairsPts ps) w h))) (h - 1))
          x_max := max 0 (min
            (maxL (evens (denormalize_coordinates (pairsPts ps) w h))) (w - 1))
          y_max := max 0 (min
            (maxL (odds (denormalize_coordinates (pairsPts ps) w h))) (h - 1)) }
    ∧ ∀ pts : List (ℚ ⊕ List ℚ),
        get_bounding_box pts w h = none ↔
          (denormalize_coordinates pts w h).length < 2 := by
  constructor
  · have hlen := denormalize_pairsPts_length ps w h
    have hlt : ¬((denormalize_coordinates (pairsPts ps) w h).length < 2) := by
      rw [hlen]
      cases ps with
      | nil => exact absurd rfl hps
      | cons p t => simp only [List.length_cons]; omega
    obtain ⟨a, b, t, hpc⟩ := denormalize_cons_cons hlt
    have hev : evens (denormalize_coordinates (pairsPts ps) w h) ≠ [] := by
      rw [hpc]; simp [evens]
    have hod : odds (denormalize_coordinates (pairsPts ps) w h) ≠ [] := by
      rw [hpc]; simp [odds]
    simp only [get_bounding_box, if_neg hlt,
      if_neg (show ¬(evens (denormalize_coordinates (pairsPts ps) w h) = [] ∨
        odds (denormalize_coordinates (pairsPts ps) w h) = []) by
          intro hc; rcases hc with hc | hc
          · exact hev hc
          · exact hod hc)]
  · intro pts
    constructor
    · intro hnone
      by_contra hge
      obtain ⟨a, b, t, hpc⟩ := denormalize_cons_cons hge
      have hev : evens (denormalize_coordinates pts w h) ≠ [] := by
        rw [hpc]; simp [evens]
      have hod : odds (denormalize_coordinates pts w h) ≠ [] := by
        rw [hpc]; simp [odds]
      simp only [get_bounding_box, if_neg hge,
        if_neg (show ¬(evens (denormalize_coordinates pts w h) = [] ∨
          odds (denormalize_coordinates pts w h) = []) by
            intro hc; rcases hc with hc | hc
            · exact hev hc
            · exact hod hc)] at hnone
      exact Option.noConfusion hnone
    · intro hlt
      simp only [get_bounding_box, if_pos hlt]

/-- Witness for C3 at one nested pair `[[0.5, 0.5]]` in a 100x100 image. -/
theorem get_bounding_box_minmax_witness :
    ((0:ℤ) < 100 ∧ (0:ℤ) < 100 ∧ pairsPts [(1/2, 1/2)] ≠ []) ∧
    (get_bounding_box (pairsPts [(1/2, 1/2)]) 100 100 =
      some
        { x_min := max 0 (min
            (minL (evens (denormalize_coordinates (pairsPts [(1/2, 1/2)]) 100 100))) (100 - 1))
          y_min := max 0 (min
            (minL (odds (denormalize_coordinates (pairsPts [(1/2, 1/2)]) 100 100))) (100 - 1))
          x_max := max 0 (min
            (maxL (evens (denormalize_coordinates (pairsPts [(1/2, 1/2)]) 100 100))) (100 - 1))
          y_max := max 0 (min
            (maxL (odds (denormalize_coordinates (pairsPts [(1/2, 1/2)]) 100 100))) (100 - 1)) }) :=
  ⟨⟨by decide, by decide, by simp [pairsPts]⟩,
   (get_bounding_box_minmax [(1/2, 1/2)] 100 100 (by decide) (by decide)
     (by simp [pairsPts])).1⟩

lemma denormPairs_evens_mem {w h : ℤ} (hw : 0 < w) :
    ∀ l, ∀ v ∈ evens (denormPairs w h l), 0 ≤ v ∧ v ≤ w := by
  intro l
  induction l using denormPairs.induct w h with
  | case1 x y rest ih =>
    intro v hv
    rw [denormPairs] at hv
    simp only [evens, List.mem_cons] at hv
    rcases hv with hv | hv
    · exact hv ▸ pyInt_clamp01_mem hw
    · exact ih v hv
  | case2 l hl =>
    intro v hv
    cases l with
    | nil => simp [denormPairs, evens] at hv
    | cons x xs =>
      cases xs with
      | nil => simp [denormPairs, evens] at hv
      | cons y r => exact (hl x y r rfl).elim

lemma denormPairs_odds_mem {w h : ℤ} (hh : 0 < h) :
    ∀ l, ∀ v ∈ odds (denormPairs w h l), 0 ≤ v ∧ v ≤ h := by
  intro l
  induction l using denormPairs.induct w h with
  | case1 x y rest ih =>
    intro v hv
    rw [denormPairs] at hv
    simp only [odds, List.mem_cons] at hv
    rcases hv with hv | hv
    · exact hv ▸ pyInt_clamp01_mem hh
    · exact ih v hv
  | case2 l hl =>
    intro v hv
    cases l with
    | nil => simp [denormPairs, odds] at hv
    | cons x xs =>
      cases xs with
      | nil => simp [denormPairs, odds] at hv
      | cons y r => exact (hl x y r rfl).elim

/-- Claim C10: for positive dimensions, every x value produced by
`denormalize_coordinates` lies in `[0, image_width]` and every y value in
`[0, image_height]`; a normalized coordinate of `1` or greater maps to
exactly the dimension (one past the largest valid pixel index); and the
overlay dispatch consumes exactly these unclamped values when no offset
box is given. -/
theorem denormalize_range (pts : List (ℚ ⊕ List ℚ)) (w h : ℤ)
    (hw : 0 < w) (hh : 0 < h) :
    (∀ v ∈ evens (denormalize_coordinates pts w h), 0 ≤ v ∧ v ≤ w) ∧
    (∀ v ∈ odds (denormalize_coordinates pts w h), 0 ≤ v ∧ v ≤ h) ∧
    (∀ q : ℚ, 1 ≤ q → pyInt (clamp01 q * (w : ℚ)) = w) ∧
    (∀ (i shape : ℤ) (vis : Bool),
      overlay_cmds ⟨i, shape, pts, vis⟩ w h none
        = dispatchShape shape (denormalize_coordinates pts w h)) := by
  refine ⟨?_, ?_, fun q hq => pyInt_clamp01_of_one_le hq,
    fun i shape vis => rfl⟩
  · unfold denormalize_coordinates
    exact denormPairs_evens_mem hw _
  · unfold denormalize_coordinates
    exact denormPairs_odds_mem hh _

/-- Witness for C10 on the points `[0.25, 2]` in a 100x100 image. -/
theorem denormalize_range_witness :
    ((0:ℤ) < 100 ∧ (0:ℤ) < 100) ∧
    ((∀ v ∈ evens (denormalize_coordinates [.inl (1/4), .inl 2] 100 100),
        0 ≤ v ∧ v ≤ 100) ∧
     (∀ v ∈ odds (denormalize_coordinates [.inl (1/4), .inl 2] 100 100),
        0 ≤ v ∧ v ≤ 100) ∧
     (∀ q : ℚ, 1 ≤ q → pyInt (clamp01 q * ((100 : ℤ) : ℚ)) = 100) ∧
     (∀ (i shape : ℤ) (vis : Bool),
        overlay_cmds ⟨i, shape, [.inl (1/4), .inl 2], vis⟩ 100 100 none
          = dispatchShape shape
              (denormalize_coordinates [.inl (1/4), .inl 2] 100 100))) :=
  ⟨⟨by decide, by decide⟩,
   denormalize_range [.inl (1/4), .inl 2] 100 100 (by decide) (by decide)⟩

/-- Claim C5: the cropping operation is total — every failure path yields
the null result (`none`, the embedding of the source's `(None, None)`,
which its catch-all `try/except` guarantees instead of an unhandled
exception) — and a non-null `(crop, expanded box)` pair is returned only
when the expanded box is non-degenerate and the crop has nonzero
dimensions. -/
theorem crop_annotation_safe (img : PILImage) (ann : Annotation)
    (w h : ℤ) (pp : ℚ) :
    (∀ c b, crop_annotation img ann w h pp = some (c, b) →
      b.x_min < b.x_max ∧ b.y_min < b.y_max ∧ c.width ≠ 0 ∧ c.height ≠ 0) ∧
    (get_bounding_box ann.points w h = none →
      crop_annotation img ann w h pp = none) := by
  constructor
  · intro c b hcb
    unfold crop_annotation at hcb
    cases hg : get_bounding_box ann.points w h with
    | none =>
      rw [hg] at hcb
      exact Option.noConfusion hcb
    | some bbox =>
      rw [hg] at hcb
      simp only [] at hcb
      split_ifs at hcb with hdeg hzero
      rw [Option.some_inj, Prod.mk.injEq] at hcb
      obtain ⟨hc, hb⟩ := hcb
      subst hc
      subst hb
      push_neg at hdeg hzero
      exact ⟨hdeg.1, hdeg.2, hzero.1, hzero.2⟩
  · intro hg
    unfold crop_annotation
    rw [hg]

/-- Witness for C5: a successful crop of the nested-pairs annotation
spanning the whole 100x100 image, with zero padding. -/
theorem crop_annotation_safe_witness :
    crop_annotation ⟨100, 100⟩ ⟨7, 4, [.inr [0, 0], .inr [1, 1]], true⟩
        100 100 0 = some (⟨99, 99⟩, ⟨0, 0, 99, 99⟩) ∧
    ((Box.mk 0 0 99 99).x_min < (Box.mk 0 0 99 99).x_max ∧
     (Box.mk 0 0 99 99).y_min < (Box.mk 0 0 99 99).y_max ∧
     (PILImage.mk 99 99).width ≠ 0 ∧ (PILImage.mk 99 99).height ≠ 0) := by
  have hcrop : crop_annotation ⟨100, 100⟩
      ⟨7, 4, [.inr [0, 0], .inr [1, 1]], true⟩ 100 100 0
      = some (⟨99, 99⟩, ⟨0, 0, 99, 99⟩) := by
    simp +decide [ crop_annotation, get_bounding_box, denormalize_coordinates,
      flatten_points, denormPairs, evens, odds, minL, maxL, expand_bbox,
      force_min, cropImage]
  exact ⟨hcrop,
    (crop_annotation_safe ⟨100, 100⟩ ⟨7, 4, [.inr [0, 0], .inr [1, 1]], true⟩
      100 100 0).1 ⟨99, 99⟩ ⟨0, 0, 99, 99⟩ hcrop⟩

/-- Claim C9: rendering never mutates the caller-supplied image. In the
heap model of Python object identity, `draw_annotation_on_image` leaves
the buffer at the caller's index untouched, and draws on a freshly
allocated copy whose index is distinct from the input's — so repeated
calls on the same image are safe. -/
theorem draw_annotation_no_mutation (heap : List PILBuf) (image : ℕ)
    (ann : Annotation) (w h : ℤ) (bbox : Option Box)
    (himg : image < heap.length) :
    (draw_annotation_on_image heap image ann w h bbox).1[image]?
        = heap[image]? ∧
    (draw_annotation_on_image heap image ann w h bbox).2 = heap.length ∧
    (draw_annotation_on_image heap image ann w h bbox).2 ≠ image := by
  refine ⟨?_, rfl, by simp [draw_annotation_on_image]; omega⟩
  show ((heap ++ [heap.getD image ⟨[], []⟩]).set heap.length _)[image]?
      = heap[image]?
  rw [List.getElem?_set_ne (by omega)]
  exact List.getElem?_append_left himg

/-- Witness for C9 on a one-buffer heap. -/
theorem draw_annotation_no_mutation_witness :
    (0 < ([⟨[], []⟩] : List PILBuf).length) ∧
    ((draw_annotation_on_image [⟨[], []⟩] 0 ⟨1, 3, [], true⟩ 10 10 none).1[0]?
        = ([⟨[], []⟩] : List PILBuf)[0]? ∧
     (draw_annotation_on_image [⟨[], []⟩] 0 ⟨1, 3, [], true⟩ 10 10 none).2
        = ([⟨[], []⟩] : List PILBuf).length ∧
     (draw_annotation_on_image [⟨[], []⟩] 0 ⟨1, 3, [], true⟩ 10 10 none).2
        ≠ 0) :=
  ⟨by decide,
   draw_annotation_no_mutation [⟨[], []⟩] 0 ⟨1, 3, [], true⟩ 10 10 none
     (by decide)⟩

end Claims

end T2D2
